import Mathlib

/-!
Verification of the tactics repository's specification against its code.

The repository's checked-in sources consist of the build configuration and
the preprocessor header `src/mini/macros/Export.h`; the compiler core the
specification describes (module representation, pass pipeline driver,
backend selector, lowering backends, kernel cache) is not present under
`src/`.  The header is embedded directly from its source text; the core
components are modelled from the specification's words, each definition
saying so in its doc comment.
-/

namespace Tactics

/-- Association-list lookup on string keys: the first binding wins, as for
both C preprocessor macro tables and the attribute maps modelled below. -/
def slookup {α : Type} : List (String × α) → String → Option α
  | [], _ => none
  | (k, v) :: l, k' => if k = k' then some v else slookup l k'

/-! ## The C preprocessor state of src/mini/macros/Export.h -/

/-- A C preprocessor macro environment: object-like macro names mapped to
their replacement text.  `#define` prepends, `#undef` removes. -/
def PPEnv : Type := List (String × String)

/-- `#define n v`. -/
def ppDefine (e : PPEnv) (n v : String) : PPEnv := (n, v) :: e

/-- `#undef n`: removes every binding of `n`. -/
def ppUndef (e : PPEnv) (n : String) : PPEnv :=
  List.filter (fun p => decide (p.1 ≠ n)) e

/-- Lookup of a macro name in the environment. -/
def ppLookup (e : PPEnv) (n : String) : Option String := slookup e n

/-- The preprocessor configuration bits that `src/mini/macros/Export.h`
branches on: `_WIN32`, `__GNUC__`, `MINI_BUILD_SHARED_LIBS`, `NO_EXPORT`
and `MINI_BUILD_MAIN_LIB`. -/
structure PPConfig : Type where
  win32 : Bool
  gnuc : Bool
  buildSharedLibs : Bool
  noExport : Bool
  buildMainLib : Bool

/-- `src/mini/macros/Export.h` as a function from the configuration to the
macro environment it leaves behind, following the header's conditional
structure line by line (lines 12-42). -/
def exportH (c : PPConfig) : PPEnv :=
  let e : PPEnv := []
  let e :=
    if c.win32 then
      let e := ppDefine e "MINI_HIDDEN" ""
      if c.buildSharedLibs then
        ppDefine (ppDefine e "MINI_EXPORT" "__declspec(dllexport)")
          "MINI_IMPORT" "__declspec(dllimport)"
      else
        ppDefine (ppDefine e "MINI_EXPORT" "") "MINI_IMPORT" ""
    else
      let e :=
        if c.gnuc then
          ppDefine (ppDefine e "MINI_EXPORT" "__attribute__((__visibility__(\"default\")))")
            "MINI_HIDDEN" "__attribute__((__visibility__(\"hidden\")))"
        else
          ppDefine (ppDefine e "C10_EXPORT" "") "MINI_HIDDEN" ""
      ppDefine e "MINI_IMPORT" "MINI_EXPORT"
  let e := if c.noExport then ppDefine (ppUndef e "MINI_EXPORT") "MINU_EXPORT" "" else e
  if c.buildMainLib then ppDefine e "MINI_API" "MINI_EXPORT"
  else ppDefine e "MINI_API" "MINI_IMPORT"

/-- Full expansion of one token with fuel: while the token is a defined
macro whose body is a single token, keep expanding; a token that is not a
defined macro stands for itself (for a macro such as `MINI_EXPORT` left
undefined, the identifier itself is what the compiler sees). -/
def ppExpand (e : PPEnv) : Nat → String → String
  | 0, t => t
  | n + 1, t =>
    match ppLookup e t with
    | some b => ppExpand e n b
    | none => t

/-! ## The compiler core, modelled from the specification

None of the components below exist under `src/`; every definition in this
part is modelled from the specification's words (sections 3-7). -/

/-- Modelled from the spec: a typed literal attribute value (the codomain of
an Operation's attribute mapping). -/
inductive AttrVal : Type where
  | int (n : Int)
  | str (s : String)
  | bool (b : Bool)
deriving DecidableEq, Inhabited

/-- Modelled from the spec: an Operation's attribute mapping, "string key →
typed literal value, insertion order irrelevant", kept as the insertion
sequence; lookup and canonicalization below give it mapping semantics. -/
abbrev Attrs : Type := List (String × AttrVal)

mutual
/-- Modelled from the spec: an Operation — a typed opcode, an ordered
sequence of operand references into the value namespace (each a `Nat`
index of an earlier-defined value), an attribute mapping, and zero or
more nested Regions. -/
inductive Op : Type where
  | mk (opcode : String) (operands : List Nat) (attrs : Attrs) (regions : Regions)
/-- Modelled from the spec: the ordered sequence of nested Regions of an
Operation, each Region an ordered sequence of Operations. -/
inductive Regions : Type where
  | nil
  | cons (r : OpSeq) (rs : Regions)
/-- Modelled from the spec: an ordered sequence of Operations — a Region's
body, and a whole Module Representation at the top level. -/
inductive OpSeq : Type where
  | nil
  | cons (o : Op) (os : OpSeq)
end

/-- Modelled from the spec: a Module Representation is an ordered sequence
of Operations. -/
abbrev Module : Type := OpSeq

deriving instance DecidableEq for Op, Regions, OpSeq

/-! ### Fingerprinting and structural isomorphism -/

/-- The set of keys bound by an attribute mapping. -/
def attrKeys (l : Attrs) : Finset String := (l.map Prod.fst).toFinset

/-- Modelled from the spec: two attribute mappings are the same mapping
when they bind every key to the same value — insertion order irrelevant. -/
def AttrEquiv (l1 l2 : Attrs) : Prop := ∀ k, slookup l1 k = slookup l2 k

/-- Canonical form of an attribute mapping: its bindings listed in sorted
key order, so that two insertion sequences of the same mapping canonicalize
identically. -/
def canonAttrs (l : Attrs) : Attrs :=
  ((attrKeys l).sort (fun a b => a ≤ b)).map
    (fun k => (k, (slookup l k).getD (AttrVal.bool false)))

mutual
/-- Canonical form of an Operation: attribute mappings canonicalized
throughout; opcode, operand references and region structure unchanged. -/
def canonOp : Op → Op
  | .mk oc ops l rs => .mk oc ops (canonAttrs l) (canonRegions rs)
/-- Canonical form of a Region sequence. -/
def canonRegions : Regions → Regions
  | .nil => .nil
  | .cons r rs => .cons (canonSeq r) (canonRegions rs)
/-- Canonical form of an Operation sequence. -/
def canonSeq : OpSeq → OpSeq
  | .nil => .nil
  | .cons o os => .cons (canonOp o) (canonSeq os)
end

/-- Modelled from the spec: the Module fingerprint, "a stable structural
hash of a Module used as a cache key component"; since the spec requires
that fingerprints agree exactly on structurally isomorphic Modules, the
hash is modelled collision-free as the canonical structure itself. -/
def fingerprint (m : Module) : Module := canonSeq m

mutual
/-- Modelled from the spec: structural isomorphism of Operations — same
opcode, same operand topology, same attribute mapping (insertion order
irrelevant), isomorphic nested Regions. -/
def OpIso : Op → Op → Prop
  | .mk oc1 ops1 l1 rs1, .mk oc2 ops2 l2 rs2 =>
      oc1 = oc2 ∧ ops1 = ops2 ∧ AttrEquiv l1 l2 ∧ RegionsIso rs1 rs2
/-- Structural isomorphism of Region sequences, position by position. -/
def RegionsIso : Regions → Regions → Prop
  | .nil, .nil => True
  | .cons r rs, .cons r' rs' => SeqIso r r' ∧ RegionsIso rs rs'
  | _, _ => False
/-- Structural isomorphism of Operation sequences, position by position. -/
def SeqIso : OpSeq → OpSeq → Prop
  | .nil, .nil => True
  | .cons o os, .cons o' os' => OpIso o o' ∧ SeqIso os os'
  | _, _ => False
end

mutual
/-- A structural copy of an Operation, rebuilt node by node. -/
def copyOp : Op → Op
  | .mk oc ops l rs => .mk oc ops (l.map (fun p => (p.1, p.2))) (copyRegions rs)
/-- A structural copy of a Region sequence. -/
def copyRegions : Regions → Regions
  | .nil => .nil
  | .cons r rs => .cons (copySeq r) (copyRegions rs)
/-- A structural copy of an Operation sequence. -/
def copySeq : OpSeq → OpSeq
  | .nil => .nil
  | .cons o os => .cons (copyOp o) (copySeq os)
end

/-! ### Construction-time structural verification -/

/-- Modelled from the spec (error taxonomy, section 7). -/
inductive CompileErr : Type where
  | malformedModule (violation : String)
  | passInvariantViolation (passName : String)
  | unsupportedConstruct (qualifiedOpcode : String)
  | legalizationFailure (detail : String)
  | codegenFailure (diagnostic : String)
  | unknownArchitecture (arch : String)
deriving DecidableEq

mutual
/-- Modelled from the spec: structural verification of one Operation given
the number `avail` of values defined before it in dominating regions —
every operand reference must resolve to an earlier-defined value; the first
violation found is reported. -/
def checkOp (avail : Nat) : Op → Except String Unit
  | .mk oc ops _ rs =>
    match ops.find? (fun i => decide (avail ≤ i)) with
    | some i =>
        .error ("operand " ++ toString i ++ " of " ++ oc ++
          " references a value not yet defined")
    | none => checkRegions avail rs
/-- Structural verification of an Operation's nested Regions; each Region
sees the values of its dominating regions. -/
def checkRegions (avail : Nat) : Regions → Except String Unit
  | .nil => .ok ()
  | .cons r rs =>
    match checkSeq avail r with
    | .error v => .error v
    | .ok _ => checkRegions avail rs
/-- Structural verification of an Operation sequence: each Operation is
checked against the values defined so far, and defines one value. -/
def checkSeq (avail : Nat) : OpSeq → Except String Unit
  | .nil => .ok ()
  | .cons o os =>
    match checkOp avail o with
    | .error v => .error v
    | .ok _ => checkSeq (avail + 1) os
end

/-- Modelled from the spec: Module Representation construction — validates
structural well-formedness and fails with `MalformedModule` naming the
first violation found, at construction time. -/
def mkModule (raw : OpSeq) : Except CompileErr Module :=
  match checkSeq 0 raw with
  | .error v => .error (.malformedModule v)
  | .ok _ => .ok raw

/-- A Module is well-formed when construction-time verification accepts it. -/
def wellFormed (m : Module) : Prop := checkSeq 0 m = .ok ()

/-! ### Target descriptors and canonical keys -/

/-- Modelled from the spec: a Target Descriptor — architecture family,
chip identifier, feature-flag set (strings, set semantics; kept as the
list the caller supplied). -/
structure TargetDescriptor : Type where
  arch : String
  chip : String
  features : List String

/-- The feature-flag set in canonical order: the set of flags sorted. -/
def canonFeatures (fs : List String) : List String :=
  fs.toFinset.sort (fun a b => a ≤ b)

/-- Modelled from the spec: the canonical key of a Target Descriptor — a
pure function of its fields, with the feature set canonicalized so that
set-equal feature lists key identically. -/
def canonicalKey (t : TargetDescriptor) : String :=
  t.arch ++ ";" ++ t.chip ++ ";" ++ String.intercalate "," (canonFeatures t.features)

/-! ### Backend selection and lowering -/

/-- Modelled from the spec: the closed set of lowering backends. -/
inductive BackendChoice : Type where
  | nvptx
  | amdgpu
deriving DecidableEq

/-- Modelled from the spec: the Backend Selector — pure dispatch on the
Target Descriptor's architecture family, `UnknownArchitecture` when the
family is not one of the two supported values, no fallback between
architectures. -/
def selectBackend (t : TargetDescriptor) : Except CompileErr BackendChoice :=
  if t.arch = "nvptx" then .ok .nvptx
  else if t.arch = "amdgpu" then .ok .amdgpu
  else .error (.unknownArchitecture t.arch)

mutual
/-- The opcode `c` occurs somewhere in an Operation (as its own opcode or
inside a nested Region). -/
def OccursOp (c : String) : Op → Prop
  | .mk oc _ _ rs => oc = c ∨ OccursRegions c rs
/-- The opcode `c` occurs in a Region sequence. -/
def OccursRegions (c : String) : Regions → Prop
  | .nil => False
  | .cons r rs => OccursSeq c r ∨ OccursRegions c rs
/-- The opcode `c` occurs in an Operation sequence. -/
def OccursSeq (c : String) : OpSeq → Prop
  | .nil => False
  | .cons o os => OccursOp c o ∨ OccursSeq c os
end

mutual
/-- Every opcode of the Operation is registered in the translation table. -/
def RegOp (tbl : List (String × String)) : Op → Prop
  | .mk oc _ _ rs => (slookup tbl oc).isSome = true ∧ RegRegions tbl rs
/-- Every opcode of the Region sequence is registered. -/
def RegRegions (tbl : List (String × String)) : Regions → Prop
  | .nil => True
  | .cons r rs => RegSeq tbl r ∧ RegRegions tbl rs
/-- Every opcode of the Operation sequence is registered. -/
def RegSeq (tbl : List (String × String)) : OpSeq → Prop
  | .nil => True
  | .cons o os => RegOp tbl o ∧ RegSeq tbl os
end

mutual
/-- Modelled from the spec: per-opcode translation of one Operation into
the target-specific lowered representation; an opcode with no registered
translation yields `UnsupportedConstruct` carrying the
architecture-qualified name of the missing opcode. -/
def translateOp (arch : String) (tbl : List (String × String)) : Op → Except CompileErr Op
  | .mk oc ops l rs =>
    match slookup tbl oc with
    | none => .error (.unsupportedConstruct (arch ++ "." ++ oc))
    | some oc' =>
      match translateRegions arch tbl rs with
      | .error e => .error e
      | .ok rs' => .ok (.mk oc' ops l rs')
/-- Translation of an Operation's nested Regions, first failure wins. -/
def translateRegions (arch : String) (tbl : List (String × String)) :
    Regions → Except CompileErr Regions
  | .nil => .ok .nil
  | .cons r rs =>
    match translateSeq arch tbl r with
    | .error e => .error e
    | .ok r' =>
      match translateRegions arch tbl rs with
      | .error e => .error e
      | .ok rs' => .ok (.cons r' rs')
/-- Translation of an Operation sequence, in order, first failure wins. -/
def translateSeq (arch : String) (tbl : List (String × String)) :
    OpSeq → Except CompileErr OpSeq
  | .nil => .ok .nil
  | .cons o os =>
    match translateOp arch tbl o with
    | .error e => .error e
    | .ok o' =>
      match translateSeq arch tbl os with
      | .error e => .error e
      | .ok os' => .ok (.cons o' os')
end

/-- Modelled from the spec: a Binary Artifact — machine code bytes, entry
point symbol, resource-requirement metadata. -/
structure Artifact : Type where
  code : List Nat
  entryPoint : String
  registers : Nat
  sharedMem : Nat
deriving DecidableEq

/-- Number of Operations at the top level of a sequence (a stand-in
resource measure derived from the lowered module). -/
def seqLength : OpSeq → Nat
  | .nil => 0
  | .cons _ os => seqLength os + 1

/-- Entry-point symbol derived from the lowered module: the first
Operation's opcode, or a fixed symbol for an empty module. -/
def entrySymbol : OpSeq → String
  | .nil => "kernel"
  | .cons (.mk oc _ _ _) _ => oc

/-- Modelled from the spec: one lowering backend — its architecture name,
its per-opcode translation table, its target-specific legalization step,
and the external machine-code emission capability (bytes or a diagnostic
string, passed through verbatim). -/
structure BackendImpl : Type where
  arch : String
  table : List (String × String)
  legalize : Module → Except CompileErr Module
  emit : Module → String → List String → Except String (List Nat)

/-- Modelled from the spec: `lower(Module, TargetDescriptor)` — translate
every Operation through the per-opcode table, legalize, invoke emission,
package resource metadata derived from the lowered module. -/
def lower (b : BackendImpl) (m : Module) (t : TargetDescriptor) : Except CompileErr Artifact :=
  match translateSeq b.arch b.table m with
  | .error e => .error e
  | .ok lowered =>
    match b.legalize lowered with
    | .error e => .error e
    | .ok legal =>
      match b.emit legal t.chip t.features with
      | .error diag => .error (.codegenFailure diag)
      | .ok bytes =>
        .ok { code := bytes, entryPoint := entrySymbol legal,
              registers := seqLength legal, sharedMem := seqLength legal }

/-! ### The pass pipeline driver -/

/-- Modelled from the spec: a Pass — a named, pure transformation from a
Module to a Module or a failure. -/
structure Pass : Type where
  name : String
  run : Module → Except CompileErr Module

/-- Modelled from the spec: host-environment state a non-deterministic
implementation might consult (wall clock, random state, an iteration-order
seed for unordered structures); the Driver must not depend on any of it. -/
structure HostEnv : Type where
  wallClock : Nat
  randSeed : Nat
  iterationSeed : Nat

/-- The Driver's pass loop: apply each pass in order, re-verify structural
well-formedness after each (a pass producing a malformed Module is a
`PassInvariantViolation`), short-circuit on the first failure. -/
def runDriverAux : List Pass → Module → Except CompileErr Module
  | [], m => .ok m
  | p :: ps, m =>
    match p.run m with
    | .error e => .error e
    | .ok m' =>
      match checkSeq 0 m' with
      | .error _ => .error (.passInvariantViolation p.name)
      | .ok _ => runDriverAux ps m'

/-- Modelled from the spec: the Pass Pipeline Driver.  It receives the
host environment only to make its required independence from it a stated
property. -/
def runDriver (env : HostEnv) (passes : List Pass) (m : Module) : Except CompileErr Module :=
  runDriverAux passes m

/-- The full sequential pipeline from raw input: construction, then the
Driver, then the selected backend's lowering; the second component counts
how often the Driver was reached. -/
def compileFromRaw (env : HostEnv) (passes : List Pass) (b : BackendImpl)
    (t : TargetDescriptor) (raw : OpSeq) : Except CompileErr Artifact × Nat :=
  match mkModule raw with
  | .error e => (.error e, 0)
  | .ok m =>
    match runDriver env passes m with
    | .error e => (.error e, 1)
    | .ok m' => (lower b m' t, 1)

/-! ### The kernel cache, sequential view -/

/-- Modelled from the spec: a resolved Cache Entry — `ready` with its
artifact or `failed` with its error.  Entries transition
pending→ready or pending→failed exactly once and are never mutated
afterwards, so between sequential calls every entry has resolved; the
`pending` phase exists only while a call is in flight and is modelled by
the concurrent protocol below. -/
inductive ResolvedEntry : Type where
  | ready (a : Artifact)
  | failed (e : CompileErr)
deriving DecidableEq

/-- A cache key: (Module fingerprint, canonical target key). -/
abbrev CacheKey : Type := Module × String

/-- The cache's key→entry mapping, most recent insertion first. -/
abbrev CacheMap : Type := List (CacheKey × ResolvedEntry)

/-- Lookup in the key→entry mapping. -/
def lookupCache : CacheMap → CacheKey → Option ResolvedEntry
  | [], _ => none
  | (k, st) :: c, k' => if k = k' then some st else lookupCache c k'

/-- Insert an entry for a key. -/
def insertCache (c : CacheMap) (k : CacheKey) (st : ResolvedEntry) : CacheMap :=
  (k, st) :: c

/-- The key computed by `getOrCompile`: (Module.fingerprint(),
TargetDescriptor.canonicalKey()). -/
def cacheKey (m : Module) (t : TargetDescriptor) : CacheKey :=
  (fingerprint m, canonicalKey t)

/-- Modelled from the spec: `getOrCompile(Module, TargetDescriptor,
compileFn)` in its sequential semantics.  A `ready` entry returns its
artifact immediately; a `failed` entry returns its stored error without
retrying; on a miss, compileFn runs once and the entry becomes `ready` or
`failed`.  The third component counts the invocations of compileFn. -/
def getOrCompile (c : CacheMap) (m : Module) (t : TargetDescriptor)
    (compileFn : Module → TargetDescriptor → Except CompileErr Artifact) :
    Except CompileErr Artifact × CacheMap × Nat :=
  match lookupCache c (cacheKey m t) with
  | some (.ready a) => (.ok a, c, 0)
  | some (.failed e) => (.error e, c, 0)
  | none =>
    match compileFn m t with
    | .ok a => (.ok a, insertCache c (cacheKey m t) (.ready a), 1)
    | .error e => (.error e, insertCache c (cacheKey m t) (.failed e), 1)

/-! ### The kernel cache, concurrent protocol for one key -/

/-- Modelled from the spec: a Cache Entry's compilation-state tag. -/
inductive EntryState : Type where
  | pending
  | ready (a : Artifact)
  | failed (e : CompileErr)

/-- Modelled from the spec: one caller's progress through `getOrCompile`
for a fixed key — not yet looked up; holding the pending entry and running
the compile path; suspended on another caller's pending entry; or finished
with a result. -/
inductive CallerPhase : Type where
  | idle
  | running
  | waiting
  | done (r : Except CompileErr Artifact)

/-- The shared state for one cache key: the key's entry (if created), the
multiset of caller phases, and how often the underlying compile path has
been invoked. -/
structure KeyState : Type where
  entry : Option EntryState
  callers : Multiset CallerPhase
  compiles : Nat

/-- Modelled from the spec: the interleaved small-step protocol of N
concurrent callers requesting one key, with `res` the (deterministic)
result of the underlying compile path.  A caller finding no entry creates
the `pending` entry and invokes the compile path; a caller finding
`pending` suspends; a caller finding a resolved entry takes its stored
result; the running caller resolves the entry exactly once; a suspended
caller wakes on the resolved entry and takes its stored result. -/
inductive CStep (res : Except CompileErr Artifact) : KeyState → KeyState → Prop where
  | startCompile (s : KeyState) (rest : Multiset CallerPhase)
      (hc : s.callers = .idle ::ₘ rest) (he : s.entry = none) :
      CStep res s ⟨some .pending, .running ::ₘ rest, s.compiles + 1⟩
  | observePending (s : KeyState) (rest : Multiset CallerPhase)
      (hc : s.callers = .idle ::ₘ rest) (he : s.entry = some .pending) :
      CStep res s ⟨s.entry, .waiting ::ₘ rest, s.compiles⟩
  | hitReady (s : KeyState) (rest : Multiset CallerPhase) (a : Artifact)
      (hc : s.callers = .idle ::ₘ rest) (he : s.entry = some (.ready a)) :
      CStep res s ⟨s.entry, .done (.ok a) ::ₘ rest, s.compiles⟩
  | hitFailed (s : KeyState) (rest : Multiset CallerPhase) (e : CompileErr)
      (hc : s.callers = .idle ::ₘ rest) (he : s.entry = some (.failed e)) :
      CStep res s ⟨s.entry, .done (.error e) ::ₘ rest, s.compiles⟩
  | finishOk (s : KeyState) (rest : Multiset CallerPhase) (a : Artifact)
      (hc : s.callers = .running ::ₘ rest) (hr : res = .ok a) :
      CStep res s ⟨some (.ready a), .done res ::ₘ rest, s.compiles⟩
  | finishErr (s : KeyState) (rest : Multiset CallerPhase) (e : CompileErr)
      (hc : s.callers = .running ::ₘ rest) (hr : res = .error e) :
      CStep res s ⟨some (.failed e), .done res ::ₘ rest, s.compiles⟩
  | wakeReady (s : KeyState) (rest : Multiset CallerPhase) (a : Artifact)
      (hc : s.callers = .waiting ::ₘ rest) (he : s.entry = some (.ready a)) :
      CStep res s ⟨s.entry, .done (.ok a) ::ₘ rest, s.compiles⟩
  | wakeFailed (s : KeyState) (rest : Multiset CallerPhase) (e : CompileErr)
      (hc : s.callers = .waiting ::ₘ rest) (he : s.entry = some (.failed e)) :
      CStep res s ⟨s.entry, .done (.error e) ::ₘ rest, s.compiles⟩

/-- The initial state for `n` concurrent callers of one key: no entry yet,
every caller about to look up, no compile-path invocation. -/
def initKey (n : Nat) : KeyState :=
  ⟨none, Multiset.replicate n .idle, 0⟩

/-- Reachability under the concurrent protocol. -/
abbrev Reaches (res : Except CompileErr Artifact) : KeyState → KeyState → Prop :=
  Relation.ReflTransGen (CStep res)

/-- The inductive invariant of the concurrent protocol for `n` callers:
the compile path runs at most once (exactly once as soon as the entry
exists), resolved entries store the compile path's result, every finished
caller holds that same result, and callers are neither lost nor created. -/
abbrev CacheInv (res : Except CompileErr Artifact) (n : Nat) (s : KeyState) : Prop :=
  (s.entry = none ↔ s.compiles = 0) ∧
  s.compiles ≤ 1 ∧
  (∀ a, s.entry = some (.ready a) → res = .ok a) ∧
  (∀ e, s.entry = some (.failed e) → res = .error e) ∧
  (CallerPhase.running ∈ s.callers → s.compiles = 1) ∧
  (∀ r, CallerPhase.done r ∈ s.callers → r = res ∧ s.compiles = 1) ∧
  Multiset.card s.callers = n

/-! ### Concrete inputs used to evaluate the definitions -/

/-- A concrete Binary Artifact. -/
def wArtifact : Artifact := ⟨[7, 7], "kmain", 4, 0⟩

/-- A concrete backend with an empty per-opcode translation table. -/
def emptyBackend : BackendImpl :=
  ⟨"amdgpu", [], fun m => .ok m, fun _ _ _ => .ok []⟩

/-- A one-operation Module whose opcode is foo. -/
def fooModule : Module := .cons (.mk "foo" [] [] .nil) .nil

/-- A raw input whose first Operation's operand references value 0 before
any value is defined. -/
def badRaw : OpSeq := .cons (.mk "add" [0] [] .nil) .nil

/-- A concrete AMDGPU Target Descriptor. -/
def gfxTarget : TargetDescriptor := ⟨"amdgpu", "gfx90a", []⟩

/-- The final state of a concrete two-caller execution of the concurrent
protocol in which the compile path succeeded with `wArtifact`. -/
def twoCallerFinal : KeyState :=
  ⟨some (.ready wArtifact),
   .done (.ok wArtifact) ::ₘ {.done (.ok wArtifact)}, 1⟩

/-! ## Helper lemmas -/

theorem slookup_eq_none {α : Type} (l : List (String × α)) (k : String) :
    slookup l k = none ↔ k ∉ l.map Prod.fst := by
  induction l with
  | nil => simp [slookup]
  | cons p l ih =>
    obtain ⟨k', v⟩ := p
    simp only [slookup, List.map_cons, List.mem_cons]
    by_cases h : k' = k
    · subst h
      simp
    · rw [if_neg h, ih]
      constructor
      · intro hn
        rintro (rfl | hmem)
        · exact h rfl
        · exact hn hmem
      · intro hn hmem
        exact hn (Or.inr hmem)

theorem mem_attrKeys (l : Attrs) (k : String) :
    k ∈ attrKeys l ↔ (slookup l k).isSome = true := by
  rw [attrKeys, List.mem_toFinset, Option.isSome_iff_ne_none, ne_eq, slookup_eq_none, not_not]

theorem slookup_none_of_not_mem_keys {l : Attrs} {k : String} (h : k ∉ attrKeys l) :
    slookup l k = none :=
  Option.not_isSome_iff_eq_none.mp (fun hs => h ((mem_attrKeys l k).mpr hs))

theorem attrKeys_eq_of_equiv {l1 l2 : Attrs} (h : AttrEquiv l1 l2) :
    attrKeys l1 = attrKeys l2 := by
  ext k
  rw [mem_attrKeys, mem_attrKeys, h k]

theorem map_fst_canonAttrs (l : Attrs) :
    (canonAttrs l).map Prod.fst = (attrKeys l).sort (fun a b => a ≤ b) := by
  simp [canonAttrs, List.map_map, Function.comp_def]

/-- Canonical attribute lists agree exactly when the attribute mappings
agree as mappings. -/
theorem canonAttrs_eq_iff (l1 l2 : Attrs) :
    canonAttrs l1 = canonAttrs l2 ↔ AttrEquiv l1 l2 := by
  constructor
  · intro h k
    have hsort : (attrKeys l1).sort (fun a b => a ≤ b) =
        (attrKeys l2).sort (fun a b => a ≤ b) := by
      rw [← map_fst_canonAttrs, ← map_fst_canonAttrs, h]
    have hkeys : attrKeys l1 = attrKeys l2 := by
      calc attrKeys l1 = ((attrKeys l1).sort (fun a b => a ≤ b)).toFinset :=
            (Finset.sort_toFinset _ _).symm
        _ = ((attrKeys l2).sort (fun a b => a ≤ b)).toFinset := by rw [hsort]
        _ = attrKeys l2 := Finset.sort_toFinset _ _
    by_cases hk : k ∈ attrKeys l1
    · have hk2 : k ∈ attrKeys l2 := hkeys ▸ hk
      have hmem : (k, (slookup l1 k).getD (AttrVal.bool false)) ∈ canonAttrs l1 :=
        List.mem_map_of_mem _ ((Finset.mem_sort _).mpr hk)
      rw [h, canonAttrs] at hmem
      obtain ⟨k', hk', heq⟩ := List.mem_map.mp hmem
      have hkk : k' = k := congrArg Prod.fst heq
      subst hkk
      have hval : (slookup l2 k').getD (AttrVal.bool false) =
          (slookup l1 k').getD (AttrVal.bool false) := congrArg Prod.snd heq
      obtain ⟨v1, hv1⟩ := Option.isSome_iff_exists.mp ((mem_attrKeys l1 k').mp hk)
      obtain ⟨v2, hv2⟩ := Option.isSome_iff_exists.mp ((mem_attrKeys l2 k').mp hk2)
      rw [hv1, hv2]
      rw [hv1, hv2] at hval
      simp only [Option.getD_some] at hval
      rw [hval]
    · have hk2 : k ∉ attrKeys l2 := hkeys ▸ hk
      rw [slookup_none_of_not_mem_keys hk, slookup_none_of_not_mem_keys hk2]
  · intro h
    have hkeys := attrKeys_eq_of_equiv h
    rw [canonAttrs, canonAttrs, hkeys]
    congr 1
    funext k
    rw [h k]

mutual
/-- Canonical Operations agree exactly on isomorphic Operations. -/
theorem canonOp_eq_iff : (a b : Op) → (canonOp a = canonOp b ↔ OpIso a b)
  | .mk oc1 ops1 l1 rs1, .mk oc2 ops2 l2 rs2 => by
    simp only [canonOp, OpIso, Op.mk.injEq]
    exact and_congr Iff.rfl (and_congr Iff.rfl
      (and_congr (canonAttrs_eq_iff l1 l2) (canonRegions_eq_iff rs1 rs2)))
/-- Canonical Region sequences agree exactly on isomorphic ones. -/
theorem canonRegions_eq_iff : (a b : Regions) → (canonRegions a = canonRegions b ↔ RegionsIso a b)
  | .nil, .nil => by simp [canonRegions, RegionsIso]
  | .nil, .cons r' rs' => by simp [canonRegions, RegionsIso]
  | .cons r rs, .nil => by simp [canonRegions, RegionsIso]
  | .cons r rs, .cons r' rs' => by
    simp only [canonRegions, RegionsIso, Regions.cons.injEq]
    exact and_congr (canonSeq_eq_iff r r') (canonRegions_eq_iff rs rs')
/-- Canonical Operation sequences agree exactly on isomorphic ones. -/
theorem canonSeq_eq_iff : (a b : OpSeq) → (canonSeq a = canonSeq b ↔ SeqIso a b)
  | .nil, .nil => by simp [canonSeq, SeqIso]
  | .nil, .cons o' os' => by simp [canonSeq, SeqIso]
  | .cons o os, .nil => by simp [canonSeq, SeqIso]
  | .cons o os, .cons o' os' => by
    simp only [canonSeq, SeqIso, OpSeq.cons.injEq]
    exact and_congr (canonOp_eq_iff o o') (canonSeq_eq_iff os os')
end

mutual
/-- A structural copy of an Operation is the Operation itself. -/
theorem copyOp_eq : (a : Op) → copyOp a = a
  | .mk oc ops l rs => by
    simp [copyOp, copyRegions_eq rs]
/-- A structural copy of a Region sequence is the sequence itself. -/
theorem copyRegions_eq : (a : Regions) → copyRegions a = a
  | .nil => rfl
  | .cons r rs => by
    simp [copyRegions, copySeq_eq r, copyRegions_eq rs]
/-- A structural copy of an Operation sequence is the sequence itself. -/
theorem copySeq_eq : (a : OpSeq) → copySeq a = a
  | .nil => rfl
  | .cons o os => by
    simp [copySeq, copyOp_eq o, copySeq_eq os]
end

mutual
/-- Translation succeeds on an Operation whose opcodes are all registered. -/
theorem translateOp_ok_of_reg (arch : String) (tbl : List (String × String)) :
    (a : Op) → RegOp tbl a → ∃ a', translateOp arch tbl a = .ok a'
  | .mk oc ops l rs, h => by
    simp only [RegOp] at h
    obtain ⟨oc', hoc⟩ := Option.isSome_iff_exists.mp h.1
    obtain ⟨rs', hrs⟩ := translateRegions_ok_of_reg arch tbl rs h.2
    exact ⟨.mk oc' ops l rs', by simp [translateOp, hoc, hrs]⟩
/-- Translation succeeds on Regions whose opcodes are all registered. -/
theorem translateRegions_ok_of_reg (arch : String) (tbl : List (String × String)) :
    (a : Regions) → RegRegions tbl a → ∃ a', translateRegions arch tbl a = .ok a'
  | .nil, _ => ⟨.nil, rfl⟩
  | .cons r rs, h => by
    simp only [RegRegions] at h
    obtain ⟨r', hr⟩ := translateSeq_ok_of_reg arch tbl r h.1
    obtain ⟨rs', hrs⟩ := translateRegions_ok_of_reg arch tbl rs h.2
    exact ⟨.cons r' rs', by simp [translateRegions, hr, hrs]⟩
/-- Translation succeeds on a sequence whose opcodes are all registered. -/
theorem translateSeq_ok_of_reg (arch : String) (tbl : List (String × String)) :
    (a : OpSeq) → RegSeq tbl a → ∃ a', translateSeq arch tbl a = .ok a'
  | .nil, _ => ⟨.nil, rfl⟩
  | .cons o os, h => by
    simp only [RegSeq] at h
    obtain ⟨o', ho⟩ := translateOp_ok_of_reg arch tbl o h.1
    obtain ⟨os', hos⟩ := translateSeq_ok_of_reg arch tbl os h.2
    exact ⟨.cons o' os', by simp [translateSeq, ho, hos]⟩
end

mutual
/-- An Operation all of whose occurring opcodes are registered is fully
registered. -/
theorem regOp_of_occurs (tbl : List (String × String)) :
    (a : Op) → (∀ c, OccursOp c a → (slookup tbl c).isSome = true) → RegOp tbl a
  | .mk oc ops l rs, h => by
    simp only [RegOp]
    refine ⟨h oc ?_, regRegions_of_occurs tbl rs (fun c hc => h c ?_)⟩
    · simp [OccursOp]
    · simp only [OccursOp]
      exact Or.inr hc
/-- Regions all of whose occurring opcodes are registered are fully
registered. -/
theorem regRegions_of_occurs (tbl : List (String × String)) :
    (a : Regions) → (∀ c, OccursRegions c a → (slookup tbl c).isSome = true) → RegRegions tbl a
  | .nil, _ => by
    simp only [RegRegions]
  | .cons r rs, h => by
    simp only [RegRegions]
    refine ⟨regSeq_of_occurs tbl r (fun c hc => h c ?_),
      regRegions_of_occurs tbl rs (fun c hc => h c ?_)⟩
    · simp only [OccursRegions]
      exact Or.inl hc
    · simp only [OccursRegions]
      exact Or.inr hc
/-- A sequence all of whose occurring opcodes are registered is fully
registered. -/
theorem regSeq_of_occurs (tbl : List (String × String)) :
    (a : OpSeq) → (∀ c, OccursSeq c a → (slookup tbl c).isSome = true) → RegSeq tbl a
  | .nil, _ => by
    simp only [RegSeq]
  | .cons o os, h => by
    simp only [RegSeq]
    refine ⟨regOp_of_occurs tbl o (fun c hc => h c ?_),
      regSeq_of_occurs tbl os (fun c hc => h c ?_)⟩
    · simp only [OccursSeq]
      exact Or.inl hc
    · simp only [OccursSeq]
      exact Or.inr hc
end

mutual
/-- Translating an Operation in which the unregistered opcode `c` occurs,
and in which every unregistered opcode is `c`, reports `UnsupportedConstruct`
naming `c`, architecture-qualified. -/
theorem translateOp_unsupported (arch : String) (tbl : List (String × String)) (c : String)
    (hc : slookup tbl c = none) :
    (a : Op) → OccursOp c a →
    (∀ d, OccursOp d a → slookup tbl d = none → d = c) →
    translateOp arch tbl a = .error (.unsupportedConstruct (arch ++ "." ++ c))
  | .mk oc ops l rs, hocc, honly => by
    simp only [OccursOp] at hocc
    cases hoc : slookup tbl oc with
    | none =>
      have hh : oc = c := honly oc (by simp [OccursOp]) hoc
      subst hh
      simp [translateOp, hoc]
    | some oc' =>
      have hnc : oc ≠ c := by
        intro he
        rw [he, hc] at hoc
        cases hoc
      have hrs : OccursRegions c rs := by
        rcases hocc with h | h
        · exact absurd h hnc
        · exact h
      have herr := translateRegions_unsupported arch tbl c hc rs hrs
        (fun d hd hn => honly d (by simp only [OccursOp]; exact Or.inr hd) hn)
      simp [translateOp, hoc, herr]
/-- Translating Regions in which the unregistered opcode `c` occurs, and in
which every unregistered opcode is `c`, reports `UnsupportedConstruct`
naming `c`. -/
theorem translateRegions_unsupported (arch : String) (tbl : List (String × String)) (c : String)
    (hc : slookup tbl c = none) :
    (a : Regions) → OccursRegions c a →
    (∀ d, OccursRegions d a → slookup tbl d = none → d = c) →
    translateRegions arch tbl a = .error (.unsupportedConstruct (arch ++ "." ++ c))
  | .nil, hocc, _ => by
    simp only [OccursRegions] at hocc
  | .cons r rs, hocc, honly => by
    simp only [OccursRegions] at hocc
    by_cases hr : OccursSeq c r
    · have herr := translateSeq_unsupported arch tbl c hc r hr
        (fun d hd hn => honly d (by simp only [OccursRegions]; exact Or.inl hd) hn)
      simp [translateRegions, herr]
    · have hrs : OccursRegions c rs := hocc.resolve_left hr
      have hreg : RegSeq tbl r := regSeq_of_occurs tbl r (fun d hd => by
        by_contra hnone
        have hn : slookup tbl d = none := Option.not_isSome_iff_eq_none.mp hnone
        have hd' : d = c :=
          honly d (by simp only [OccursRegions]; exact Or.inl hd) hn
        subst hd'
        exact hr hd)
      obtain ⟨r', hrok⟩ := translateSeq_ok_of_reg arch tbl r hreg
      have herr := translateRegions_unsupported arch tbl c hc rs hrs
        (fun d hd hn => honly d (by simp only [OccursRegions]; exact Or.inr hd) hn)
      simp [translateRegions, hrok, herr]
/-- Translating a sequence in which the unregistered opcode `c` occurs, and
in which every unregistered opcode is `c`, reports `UnsupportedConstruct`
naming `c`. -/
theorem translateSeq_unsupported (arch : String) (tbl : List (String × String)) (c : String)
    (hc : slookup tbl c = none) :
    (a : OpSeq) → OccursSeq c a →
    (∀ d, OccursSeq d a → slookup tbl d = none → d = c) →
    translateSeq arch tbl a = .error (.unsupportedConstruct (arch ++ "." ++ c))
  | .nil, hocc, _ => by
    simp only [OccursSeq] at hocc
  | .cons o os, hocc, honly => by
    simp only [OccursSeq] at hocc
    by_cases ho : OccursOp c o
    · have herr := translateOp_unsupported arch tbl c hc o ho
        (fun d hd hn => honly d (by simp only [OccursSeq]; exact Or.inl hd) hn)
      simp [translateSeq, herr]
    · have hos : OccursSeq c os := hocc.resolve_left ho
      have hreg : RegOp tbl o := regOp_of_occurs tbl o (fun d hd => by
        by_contra hnone
        have hn : slookup tbl d = none := Option.not_isSome_iff_eq_none.mp hnone
        have hd' : d = c :=
          honly d (by simp only [OccursSeq]; exact Or.inl hd) hn
        subst hd'
        exact ho hd)
      obtain ⟨o', hook⟩ := translateOp_ok_of_reg arch tbl o hreg
      have herr := translateSeq_unsupported arch tbl c hc os hos
        (fun d hd hn => honly d (by simp only [OccursSeq]; exact Or.inr hd) hn)
      simp [translateSeq, hook, herr]
end

theorem compiles_one_of_entry_some {s : KeyState} {x : EntryState}
    (h1 : s.entry = none ↔ s.compiles = 0) (h2 : s.compiles ≤ 1)
    (he : s.entry = some x) : s.compiles = 1 := by
  by_cases h0 : s.compiles = 0
  · rw [h1.mpr h0] at he
    exact Option.noConfusion he
  · omega

/-- The concurrent protocol's invariant holds initially. -/
theorem cacheInv_init (res : Except CompileErr Artifact) (n : Nat) :
    CacheInv res n (initKey n) := by
  refine ⟨by simp [initKey], by simp [initKey], ?_, ?_, ?_, ?_, by simp [initKey]⟩
  · intro a h
    simp [initKey] at h
  · intro e h
    simp [initKey] at h
  · intro h
    have hh := Multiset.eq_of_mem_replicate (by simpa [initKey] using h)
    simp at hh
  · intro r h
    have hh := Multiset.eq_of_mem_replicate (by simpa [initKey] using h)
    simp at hh

/-- Every step of the concurrent protocol preserves the invariant. -/
theorem cacheInv_step {res : Except CompileErr Artifact} {n : Nat} {s s' : KeyState}
    (hstep : CStep res s s') (hinv : CacheInv res n s) : CacheInv res n s' := by
  obtain ⟨h1, h2, h3, h4, h5, h6, h7⟩ := hinv
  cases hstep with
  | startCompile rest hc he =>
    have hc0 : s.compiles = 0 := h1.mp he
    refine ⟨⟨fun h => by simp at h, fun h => absurd h (by dsimp only; omega)⟩,
      by dsimp only; omega, ?_, ?_, fun _ => by dsimp only; omega, ?_, ?_⟩
    · intro a h
      simp at h
    · intro e h
      simp at h
    · intro r h
      rw [Multiset.mem_cons] at h
      rcases h with h | h
      · simp at h
      · have hmem : CallerPhase.done r ∈ s.callers := by
          rw [hc]
          exact Multiset.mem_cons_of_mem h
        exact absurd (h6 r hmem).2 (by omega)
    · rw [hc] at h7
      simpa using h7
  | observePending rest hc he =>
    refine ⟨h1, h2, h3, h4, ?_, ?_, ?_⟩
    · intro h
      rw [Multiset.mem_cons] at h
      rcases h with h | h
      · simp at h
      · exact h5 (by rw [hc]; exact Multiset.mem_cons_of_mem h)
    · intro r h
      rw [Multiset.mem_cons] at h
      rcases h with h | h
      · simp at h
      · exact h6 r (by rw [hc]; exact Multiset.mem_cons_of_mem h)
    · rw [hc] at h7
      simpa using h7
  | hitReady rest a hc he =>
    have hc1 : s.compiles = 1 := compiles_one_of_entry_some h1 h2 he
    refine ⟨h1, h2, h3, h4, ?_, ?_, ?_⟩
    · intro h
      rw [Multiset.mem_cons] at h
      rcases h with h | h
      · simp at h
      · exact h5 (by rw [hc]; exact Multiset.mem_cons_of_mem h)
    · intro r h
      rw [Multiset.mem_cons] at h
      rcases h with h | h
      · injection h with h
        subst h
        exact ⟨(h3 a he).symm, hc1⟩
      · exact h6 r (by rw [hc]; exact Multiset.mem_cons_of_mem h)
    · rw [hc] at h7
      simpa using h7
  | hitFailed rest e hc he =>
    have hc1 : s.compiles = 1 := compiles_one_of_entry_some h1 h2 he
    refine ⟨h1, h2, h3, h4, ?_, ?_, ?_⟩
    · intro h
      rw [Multiset.mem_cons] at h
      rcases h with h | h
      · simp at h
      · exact h5 (by rw [hc]; exact Multiset.mem_cons_of_mem h)
    · intro r h
      rw [Multiset.mem_cons] at h
      rcases h with h | h
      · injection h with h
        subst h
        exact ⟨(h4 e he).symm, hc1⟩
      · exact h6 r (by rw [hc]; exact Multiset.mem_cons_of_mem h)
    · rw [hc] at h7
      simpa using h7
  | finishOk rest a hc hr =>
    have hc1 : s.compiles = 1 := h5 (by rw [hc]; exact Multiset.mem_cons_self _ _)
    refine ⟨⟨fun h => by simp at h, fun h => absurd h (by dsimp only; omega)⟩,
      h2, ?_, ?_, fun _ => hc1, ?_, ?_⟩
    · intro a' h
      rw [Option.some.injEq] at h
      injection h with h
      subst h
      exact hr
    · intro e h
      rw [Option.some.injEq] at h
      exact absurd h (by simp)
    · intro r h
      rw [Multiset.mem_cons] at h
      rcases h with h | h
      · injection h with h
        subst h
        exact ⟨rfl, hc1⟩
      · exact h6 r (by rw [hc]; exact Multiset.mem_cons_of_mem h)
    · rw [hc] at h7
      simpa using h7
  | finishErr rest e hc hr =>
    have hc1 : s.compiles = 1 := h5 (by rw [hc]; exact Multiset.mem_cons_self _ _)
    refine ⟨⟨fun h => by simp at h, fun h => absurd h (by dsimp only; omega)⟩,
      h2, ?_, ?_, fun _ => hc1, ?_, ?_⟩
    · intro a' h
      rw [Option.some.injEq] at h
      exact absurd h (by simp)
    · intro e' h
      rw [Option.some.injEq] at h
      injection h with h
      subst h
      exact hr
    · intro r h
      rw [Multiset.mem_cons] at h
      rcases h with h | h
      · injection h with h
        subst h
        exact ⟨rfl, hc1⟩
      · exact h6 r (by rw [hc]; exact Multiset.mem_cons_of_mem h)
    · rw [hc] at h7
      simpa using h7
  | wakeReady rest a hc he =>
    have hc1 : s.compiles = 1 := compiles_one_of_entry_some h1 h2 he
    refine ⟨h1, h2, h3, h4, ?_, ?_, ?_⟩
    · intro h
      rw [Multiset.mem_cons] at h
      rcases h with h | h
      · simp at h
      · exact h5 (by rw [hc]; exact Multiset.mem_cons_of_mem h)
    · intro r h
      rw [Multiset.mem_cons] at h
      rcases h with h | h
      · injection h with h
        subst h
        exact ⟨(h3 a he).symm, hc1⟩
      · exact h6 r (by rw [hc]; exact Multiset.mem_cons_of_mem h)
    · rw [hc] at h7
      simpa using h7
  | wakeFailed rest e hc he =>
    have hc1 : s.compiles = 1 := compiles_one_of_entry_some h1 h2 he
    refine ⟨h1, h2, h3, h4, ?_, ?_, ?_⟩
    · intro h
      rw [Multiset.mem_cons] at h
      rcases h with h | h
      · simp at h
      · exact h5 (by rw [hc]; exact Multiset.mem_cons_of_mem h)
    · intro r h
      rw [Multiset.mem_cons] at h
      rcases h with h | h
      · injection h with h
        subst h
        exact ⟨(h4 e he).symm, hc1⟩
      · exact h6 r (by rw [hc]; exact Multiset.mem_cons_of_mem h)
    · rw [hc] at h7
      simpa using h7

/-- The invariant holds of every state the concurrent protocol reaches. -/
theorem cacheInv_reaches {res : Except CompileErr Artifact} {n : Nat} {s : KeyState}
    (h : Reaches res (initKey n) s) : CacheInv res n s := by
  induction h with
  | refl => exact cacheInv_init res n
  | tail _ hstep ih => exact cacheInv_step hstep ih

/-! ## The claims -/

/-- C9: for every compilation on a non-Windows platform with a compiler
that does not define __GNUC__, Export.h defines C10_EXPORT (empty) and
MINI_HIDDEN but never defines MINI_EXPORT, so MINI_IMPORT (defined as
MINI_EXPORT) and hence MINI_API expand to the undefined identifier
MINI_EXPORT rather than to an empty export annotation. -/
theorem c9_non_windows_non_gnuc (c : PPConfig) (hw : c.win32 = false) (hg : c.gnuc = false) :
    ppLookup (exportH c) "C10_EXPORT" = some "" ∧
    ppLookup (exportH c) "MINI_HIDDEN" = some "" ∧
    ppLookup (exportH c) "MINI_EXPORT" = none ∧
    ppLookup (exportH c) "MINI_IMPORT" = some "MINI_EXPORT" ∧
    ppExpand (exportH c) 8 "MINI_API" = "MINI_EXPORT" ∧
    ppExpand (exportH c) 8 "MINI_IMPORT" = "MINI_EXPORT" := by
  obtain ⟨w, g, s, ne, m⟩ := c
  revert hw hg
  revert w g s ne m
  decide

/-- Witness for C9 at the all-false configuration. -/
theorem c9_non_windows_non_gnuc_witness :
    ppLookup (exportH ⟨false, false, false, false, false⟩) "C10_EXPORT" = some "" ∧
    ppLookup (exportH ⟨false, false, false, false, false⟩) "MINI_HIDDEN" = some "" ∧
    ppLookup (exportH ⟨false, false, false, false, false⟩) "MINI_EXPORT" = none ∧
    ppLookup (exportH ⟨false, false, false, false, false⟩) "MINI_IMPORT" = some "MINI_EXPORT" ∧
    ppExpand (exportH ⟨false, false, false, false, false⟩) 8 "MINI_API" = "MINI_EXPORT" ∧
    ppExpand (exportH ⟨false, false, false, false, false⟩) 8 "MINI_IMPORT" = "MINI_EXPORT" :=
  c9_non_windows_non_gnuc ⟨false, false, false, false, false⟩ rfl rfl

/-- C10 counterexample: in a Windows shared-library compilation with
NO_EXPORT defined and MINI_BUILD_MAIN_LIB not defined, MINI_IMPORT does
not expand through MINI_EXPORT — it keeps its __declspec(dllimport)
definition — refuting the claim for that compilation. -/
theorem c10_counterexample :
    (⟨true, false, true, true, false⟩ : PPConfig).noExport = true ∧
    ppExpand (exportH ⟨true, false, true, true, false⟩) 8 "MINI_IMPORT" =
      "__declspec(dllimport)" ∧
    ppExpand (exportH ⟨true, false, true, true, false⟩) 8 "MINI_IMPORT" ≠ "MINI_EXPORT" := by
  decide

/-- C10 (amended): for every compilation with NO_EXPORT defined, Export.h
removes any prior definition of MINI_EXPORT and defines the misspelled
macro MINU_EXPORT instead, so MINI_EXPORT remains undefined; on
non-Windows platforms MINI_API and MINI_IMPORT still expand through
MINI_EXPORT to that undefined identifier, and on Windows MINI_API does so
when MINI_BUILD_MAIN_LIB is defined. -/
theorem c10_no_export_undefines (c : PPConfig) (h : c.noExport = true) :
    ppLookup (exportH c) "MINI_EXPORT" = none ∧
    ppLookup (exportH c) "MINU_EXPORT" = some "" ∧
    (c.win32 = false →
      ppExpand (exportH c) 8 "MINI_API" = "MINI_EXPORT" ∧
      ppExpand (exportH c) 8 "MINI_IMPORT" = "MINI_EXPORT") ∧
    (c.win32 = true → c.buildMainLib = true →
      ppExpand (exportH c) 8 "MINI_API" = "MINI_EXPORT") := by
  obtain ⟨w, g, s, ne, m⟩ := c
  revert h
  revert w g s ne m
  decide

/-- Witness for the amended C10 at a GNU non-Windows configuration. -/
theorem c10_no_export_undefines_witness :
    ppLookup (exportH ⟨false, true, false, true, false⟩) "MINI_EXPORT" = none ∧
    ppLookup (exportH ⟨false, true, false, true, false⟩) "MINU_EXPORT" = some "" ∧
    ((⟨false, true, false, true, false⟩ : PPConfig).win32 = false →
      ppExpand (exportH ⟨false, true, false, true, false⟩) 8 "MINI_API" = "MINI_EXPORT" ∧
      ppExpand (exportH ⟨false, true, false, true, false⟩) 8 "MINI_IMPORT" = "MINI_EXPORT") ∧
    ((⟨false, true, false, true, false⟩ : PPConfig).win32 = true →
      (⟨false, true, false, true, false⟩ : PPConfig).buildMainLib = true →
      ppExpand (exportH ⟨false, true, false, true, false⟩) 8 "MINI_API" = "MINI_EXPORT") :=
  c10_no_export_undefines ⟨false, true, false, true, false⟩ rfl

/-- C3: the Pass Pipeline Driver is deterministic — its output does not
depend on the host environment (wall clock, random state, iteration-order
seed), and two runs on the same Module and pass list produce identical
output Modules. -/
theorem c3_driver_deterministic (e1 e2 : HostEnv) (passes : List Pass) (m : Module) :
    runDriver e1 passes m = runDriver e2 passes m ∧
    runDriver e1 passes m = runDriver e1 passes m :=
  ⟨rfl, rfl⟩

/-- C5: the Backend Selector fails with UnknownArchitecture on every
architecture family other than the two supported ones, and dispatches to
exactly the backend of the requested family, never substituting the
other. -/
theorem c5_selector_dispatch (t : TargetDescriptor) :
    (t.arch ≠ "nvptx" → t.arch ≠ "amdgpu" →
      selectBackend t = .error (.unknownArchitecture t.arch)) ∧
    (selectBackend t = .ok .nvptx ↔ t.arch = "nvptx") ∧
    (selectBackend t = .ok .amdgpu ↔ t.arch = "amdgpu") := by
  refine ⟨fun h1 h2 => ?_, ⟨fun h => ?_, fun h1 => ?_⟩, ⟨fun h => ?_, fun h2 => ?_⟩⟩
  · simp [selectBackend, h1, h2]
  · by_cases h1 : t.arch = "nvptx"
    · exact h1
    · by_cases h2 : t.arch = "amdgpu" <;> simp [selectBackend, h1, h2] at h
  · simp [selectBackend, h1]
  · by_cases h1 : t.arch = "nvptx"
    · simp [selectBackend, h1] at h
    · by_cases h2 : t.arch = "amdgpu"
      · exact h2
      · simp [selectBackend, h1, h2] at h
  · by_cases h1 : t.arch = "nvptx"
    · exact absurd (h1.symm.trans h2) (by decide)
    · simp [selectBackend, h1, h2]

/-- C4: two Modules fingerprint identically if and only if they are
structurally isomorphic (same operation sequence, operand topology and
attributes); in particular a Module and its structural copy fingerprint
identically. -/
theorem c4_fingerprint_iff_isomorphic (M1 M2 : Module) :
    (fingerprint M1 = fingerprint M2 ↔ SeqIso M1 M2) ∧
    fingerprint (copySeq M1) = fingerprint M1 := by
  refine ⟨canonSeq_eq_iff M1 M2, ?_⟩
  rw [copySeq_eq]

/-- C8: the canonical key of a Target Descriptor is a pure function of its
fields — two descriptors with equal architecture family, chip identifier
and feature-flag set (set semantics) produce equal canonical keys. -/
theorem c8_canonical_key_pure (t1 t2 : TargetDescriptor)
    (ha : t1.arch = t2.arch) (hc : t1.chip = t2.chip)
    (hf : t1.features.toFinset = t2.features.toFinset) :
    canonicalKey t1 = canonicalKey t2 := by
  unfold canonicalKey canonFeatures
  rw [ha, hc, hf]

/-- Witness for C8: two descriptors whose feature lists differ only in
order produce the same canonical key. -/
theorem c8_canonical_key_pure_witness :
    canonicalKey ⟨"nvptx", "sm_70", ["fast", "dbg"]⟩ =
      canonicalKey ⟨"nvptx", "sm_70", ["dbg", "fast"]⟩ :=
  c8_canonical_key_pure ⟨"nvptx", "sm_70", ["fast", "dbg"]⟩
    ⟨"nvptx", "sm_70", ["dbg", "fast"]⟩ rfl rfl (by decide)

/-- C1: calling getOrCompile twice with the same Module and Target and no
intervening eviction returns the identical result both times, and
compileFn is invoked exactly once across the two calls. -/
theorem c1_cache_idempotent (c0 : CacheMap) (m : Module) (t : TargetDescriptor)
    (compileFn : Module → TargetDescriptor → Except CompileErr Artifact)
    (h : lookupCache c0 (cacheKey m t) = none) :
    (getOrCompile (getOrCompile c0 m t compileFn).2.1 m t compileFn).1 =
      (getOrCompile c0 m t compileFn).1 ∧
    (getOrCompile c0 m t compileFn).2.2 +
      (getOrCompile (getOrCompile c0 m t compileFn).2.1 m t compileFn).2.2 = 1 := by
  cases hcf : compileFn m t with
  | ok a => simp [getOrCompile, h, hcf, insertCache, lookupCache]
  | error e => simp [getOrCompile, h, hcf, insertCache, lookupCache]

/-- Witness for C1 on an empty cache with a succeeding compileFn. -/
theorem c1_cache_idempotent_witness :
    (getOrCompile (getOrCompile [] fooModule gfxTarget (fun _ _ => .ok wArtifact)).2.1
        fooModule gfxTarget (fun _ _ => .ok wArtifact)).1 =
      (getOrCompile [] fooModule gfxTarget (fun _ _ => .ok wArtifact)).1 ∧
    (getOrCompile [] fooModule gfxTarget (fun _ _ => .ok wArtifact)).2.2 +
      (getOrCompile (getOrCompile [] fooModule gfxTarget (fun _ _ => .ok wArtifact)).2.1
        fooModule gfxTarget (fun _ _ => .ok wArtifact)).2.2 = 1 :=
  c1_cache_idempotent [] fooModule gfxTarget (fun _ _ => .ok wArtifact) rfl

/-- C7: a structurally ill-formed raw input (an operand referencing a value
not yet defined) fails at construction with MalformedModule naming the
first violation, before the Pass Pipeline Driver is ever reached (the
Driver run count stays 0); and every Module that construction hands to
later components is well-formed. -/
theorem c7_malformed_at_construction (env : HostEnv) (passes : List Pass) (b : BackendImpl)
    (t : TargetDescriptor) (raw : OpSeq) (v : String)
    (h : checkSeq 0 raw = .error v) :
    compileFromRaw env passes b t raw = (.error (.malformedModule v), 0) ∧
    ∀ raw' m, mkModule raw' = .ok m → wellFormed m := by
  constructor
  · simp [compileFromRaw, mkModule, h]
  · intro raw' m hm
    unfold mkModule at hm
    cases hcheck : checkSeq 0 raw' with
    | error v' =>
      rw [hcheck] at hm
      cases hm
    | ok u =>
      rw [hcheck] at hm
      cases hm
      cases u
      exact hcheck

/-- Witness for C7 on a concrete ill-formed input. -/
theorem c7_malformed_at_construction_witness :
    compileFromRaw ⟨0, 0, 0⟩ [] emptyBackend gfxTarget badRaw =
      (.error (.malformedModule "operand 0 of add references a value not yet defined"), 0) ∧
    ∀ raw' m, mkModule raw' = .ok m → wellFormed m :=
  c7_malformed_at_construction ⟨0, 0, 0⟩ [] emptyBackend gfxTarget badRaw
    "operand 0 of add references a value not yet defined" rfl

/-- C6: lowering a Module in which an opcode unregistered in the backend's
per-opcode translation table occurs (the Module's only unregistered
opcode, so it is the failing construct) returns UnsupportedConstruct
naming that opcode, architecture-qualified — never a generic or opaque
failure. -/
theorem c6_unsupported_names_opcode (b : BackendImpl) (m : Module) (t : TargetDescriptor)
    (c : String) (hmiss : slookup b.table c = none) (hocc : OccursSeq c m)
    (honly : ∀ d, OccursSeq d m → slookup b.table d = none → d = c) :
    lower b m t = .error (.unsupportedConstruct (b.arch ++ "." ++ c)) := by
  have herr := translateSeq_unsupported b.arch b.table c hmiss m hocc honly
  simp [lower, herr]

/-- Witness for C6: the empty-table backend rejects the one-operation foo
Module naming amdgpu.foo. -/
theorem c6_unsupported_names_opcode_witness :
    lower emptyBackend fooModule gfxTarget =
      .error (.unsupportedConstruct ("amdgpu" ++ "." ++ "foo")) :=
  c6_unsupported_names_opcode emptyBackend fooModule gfxTarget "foo" rfl
    (by simp [fooModule, OccursSeq, OccursOp])
    (by
      intro d hd _
      simp only [fooModule, OccursSeq, OccursOp, OccursRegions] at hd
      rcases hd with (hd | hd) | hd
      · exact hd.symm
      · exact hd.elim
      · exact hd.elim)

/-- C2: in every execution of the concurrent per-key protocol in which all
N ≥ 1 callers of one key have finished, the underlying compile path was
invoked exactly once and every caller received the compile path's one
result — on failure, the identical error value. -/
theorem c2_single_compilation_shared_result (res : Except CompileErr Artifact) (n : Nat)
    (s : KeyState) (hr : Reaches res (initKey n) s) (hn : 0 < n)
    (hdone : ∀ p ∈ s.callers, ∃ r, p = CallerPhase.done r) :
    s.compiles = 1 ∧ ∀ p ∈ s.callers, p = CallerPhase.done res := by
  obtain ⟨h1, h2, h3, h4, h5, h6, h7⟩ := cacheInv_reaches hr
  have hcard : 0 < Multiset.card s.callers := by
    rw [h7]
    exact hn
  obtain ⟨p, hp⟩ := Multiset.card_pos_iff_exists_mem.mp hcard
  obtain ⟨r, hpr⟩ := hdone p hp
  subst hpr
  refine ⟨(h6 r hp).2, ?_⟩
  intro q hq
  obtain ⟨r', hqr⟩ := hdone q hq
  subst hqr
  rw [(h6 r' hq).1]

/-- Witness for C2: a concrete interleaving of two callers — one creates
the pending entry and compiles, the other suspends on the pending entry
and wakes on the resolved one; the compile path ran once and both callers
hold the same artifact. -/
theorem c2_single_compilation_shared_result_witness :
    twoCallerFinal.compiles = 1 ∧
    ∀ p ∈ twoCallerFinal.callers, p = CallerPhase.done (.ok wArtifact) := by
  have t1 : CStep (Except.ok wArtifact) (initKey 2)
      ⟨some .pending, CallerPhase.running ::ₘ {CallerPhase.idle}, 1⟩ :=
    CStep.startCompile (initKey 2) {CallerPhase.idle} rfl rfl
  have t2 : CStep (Except.ok wArtifact)
      ⟨some .pending, CallerPhase.running ::ₘ {CallerPhase.idle}, 1⟩
      ⟨some .pending, CallerPhase.waiting ::ₘ {CallerPhase.running}, 1⟩ :=
    CStep.observePending _ {CallerPhase.running}
      (Multiset.cons_swap CallerPhase.running CallerPhase.idle 0) rfl
  have t3 : CStep (Except.ok wArtifact)
      ⟨some .pending, CallerPhase.waiting ::ₘ {CallerPhase.running}, 1⟩
      ⟨some (.ready wArtifact),
        CallerPhase.done (.ok wArtifact) ::ₘ {CallerPhase.waiting}, 1⟩ :=
    CStep.finishOk _ {CallerPhase.waiting} wArtifact
      (Multiset.cons_swap CallerPhase.waiting CallerPhase.running 0) rfl
  have t4 : CStep (Except.ok wArtifact)
      ⟨some (.ready wArtifact),
        CallerPhase.done (.ok wArtifact) ::ₘ {CallerPhase.waiting}, 1⟩
      twoCallerFinal :=
    CStep.wakeReady _ {CallerPhase.done (.ok wArtifact)} wArtifact
      (Multiset.cons_swap (CallerPhase.done (.ok wArtifact)) CallerPhase.waiting 0) rfl
  have hreach : Reaches (Except.ok wArtifact) (initKey 2) twoCallerFinal :=
    Relation.ReflTransGen.tail (Relation.ReflTransGen.tail
      (Relation.ReflTransGen.tail (Relation.ReflTransGen.single t1) t2) t3) t4
  refine c2_single_compilation_shared_result (Except.ok wArtifact) 2 twoCallerFinal hreach
    (by decide) ?_
  intro p hp
  simp only [twoCallerFinal] at hp
  rw [Multiset.mem_cons, Multiset.mem_singleton] at hp
  rcases hp with rfl | rfl
  · exact ⟨Except.ok wArtifact, rfl⟩
  · exact ⟨Except.ok wArtifact, rfl⟩

end Tactics
